import Mathlib

/-!
Verification of the AI-Firewall browser extension's content-moderation
pipeline (extension/src/background/service-worker.js together with the
DOM-manipulator and content-scanner sources shipped in the same bundle).

The JavaScript sources are shallowly embedded: each JS function relevant
to the claims is translated into an executable Lean definition, JS `Map`
objects become insertion-ordered association lists, `Date.now()` becomes
an explicit `now : Nat` parameter, and the single `await` suspension
point inside an analysis handler is modelled by splitting the handler
into atomic segments scheduled by an explicit interleaving.
-/

namespace AIFirewall

/-- Content kind of a fragment, `'text'` or `'image'` in the source. -/
inductive ContentKind where
  | text
  | image
deriving DecidableEq, Repr

/-- A classification result as returned by the backend and consumed by
`getBlockingMethod` / the analysis handlers: `is_safe`, `confidence`,
and `flagged_categories` (which may be absent, hence `Option`, matching
the `analysisResult.flagged_categories || []` guard in the source). -/
structure AnalysisResult where
  is_safe : Bool
  confidence : ℚ
  flagged_categories : Option (List String)
deriving DecidableEq, Repr

/-- The three blocking methods of the DOM manipulator. -/
inductive BlockingMethod where
  | replace
  | blur
  | hide
deriving DecidableEq, Repr

/-- `DOMManipulator.getBlockingMethod(type, analysisResult)` from the
source: high confidence (`> 0.8`) or a `'severe_toxic'` category give
`'replace'`; medium confidence (`> 0.6`) gives `'blur'`; everything
else falls back to `'replace'`.  The `type` argument is unused by the
source body and is kept for fidelity. -/
def getBlockingMethod (ty : ContentKind) (analysisResult : AnalysisResult) : BlockingMethod :=
  let confidence := analysisResult.confidence
  let flaggedCategories := analysisResult.flagged_categories.getD []
  if confidence > mkRat 8 10 ∨ flaggedCategories.contains "severe_toxic" then
    .replace
  else if confidence > mkRat 6 10 then
    .blur
  else
    .replace

/-! ## The result cache (service-worker.js)

`analysisCache` is a JS `Map`, i.e. an insertion-ordered key → value
map: `set` on a fresh key appends, `set` on a present key updates in
place keeping the original position, `delete` removes the entry, and
`keys().next().value` is the first (oldest-inserted) key. -/

/-- One `analysisCache` entry: `{ data, timestamp }`. -/
structure CacheEntry (α : Type) where
  data : α
  timestamp : ℕ
deriving DecidableEq, Repr

/-- A JS `Map` as an insertion-ordered association list. -/
abbrev CacheMap (κ α : Type) := List (κ × CacheEntry α)

/-- `Map.prototype.get`. -/
def mapGet [BEq κ] (m : CacheMap κ α) (k : κ) : Option (CacheEntry α) :=
  (m.find? (fun p => p.1 == k)).map (·.2)

/-- `Map.prototype.set`: update in place when the key is present
(keeping its position), append otherwise. -/
def mapSet [BEq κ] (m : CacheMap κ α) (k : κ) (v : CacheEntry α) : CacheMap κ α :=
  if m.any (fun p => p.1 == k) then
    m.map (fun p => if p.1 == k then (p.1, v) else p)
  else
    m ++ [(k, v)]

/-- `Map.prototype.delete`. -/
def mapDelete [BEq κ] (m : CacheMap κ α) (k : κ) : CacheMap κ α :=
  m.filter (fun p => ¬ (p.1 == k))

/-- `CONFIG.CACHE_DURATION` (5 minutes, in milliseconds). -/
def CACHE_DURATION : ℕ := 5 * 60 * 1000

/-- `CONFIG.MAX_CACHE_SIZE`. -/
def MAX_CACHE_SIZE : ℕ := 1000

/-- `getFromCache(key)`: return the stored data when the entry is
younger than `CACHE_DURATION`; otherwise delete the key and return
`null`.  The mutated map is returned alongside the result. -/
def getFromCache [BEq κ] (m : CacheMap κ α) (key : κ) (now : ℕ) :
    Option α × CacheMap κ α :=
  match mapGet m key with
  | some cached =>
      if now - cached.timestamp < CACHE_DURATION then
        (some cached.data, m)
      else
        (none, mapDelete m key)
  | none => (none, mapDelete m key)

/-- `setCache(key, data)`: when the map has reached `MAX_CACHE_SIZE`,
first delete the first (oldest-inserted) key, then insert the new entry
with the current timestamp. -/
def setCache [BEq κ] (m : CacheMap κ α) (key : κ) (data : α) (now : ℕ) :
    CacheMap κ α :=
  let m' :=
    if MAX_CACHE_SIZE ≤ m.length then
      match m.head? with
      | some p => mapDelete m p.1
      | none => m
    else m
  mapSet m' key ⟨data, now⟩

/-! ## Fingerprints: `hashString` and the cache key -/

/-- Truncation to a signed 32-bit integer, the effect of JS `| 0` /
`& -1` style coercions and of 32-bit shifts. -/
def toInt32 (n : ℤ) : ℤ := ((n + 2 ^ 31) % 2 ^ 32) - 2 ^ 31

/-- One loop iteration of `hashString`:
`hash = ((hash << 5) - hash) + char; hash = hash & hash`.
`hash << 5` wraps at 32 bits; the subtraction and the addition are
exact (double-precision, far below 2^53); `hash & hash` truncates back
to 32 bits. -/
def hashStep (hash : ℤ) (c : ℕ) : ℤ :=
  toInt32 (toInt32 (hash * 32) - hash + c)

/-- `hashString(str)`: fold `hashStep` over the UTF-16 code units and
render the resulting 32-bit integer in decimal. -/
def hashString (codeUnits : List ℕ) : String :=
  toString (codeUnits.foldl hashStep 0)

/-- The cache key built in `handleTextAnalysis`:
```text:${hashString(text)}:${threshold}:${ageGroup}``.  `threshold`
and `ageGroup` appear through their JS string forms. -/
def mkTextCacheKey (text : List ℕ) (threshold ageGroup : String) : String :=
  "text:" ++ hashString text ++ ":" ++ threshold ++ ":" ++ ageGroup

/-! ## The text-analysis handler (service-worker.js)

`handleTextAnalysis` checks the cache, on a miss awaits
`makeApiRequest` (which throws on a network error or a non-`ok` HTTP
status), caches a successful result and responds
`{success:true, result}`; any thrown error is caught and answered as
`{success:false, error}` — the handler itself never throws. -/

/-- The response sent through `sendResponse`:
`{success:true, result}` or `{success:false, error}`. -/
inductive Response where
  | success (result : AnalysisResult)
  | failure (error : String)
deriving DecidableEq, Repr

/-- Outcome of the embedded `makeApiRequest`: a parsed body, or the
thrown error (network failure / `API request failed: <status>`). -/
abbrev GatewayOutcome := Except String AnalysisResult

/-- What one complete run of `handleTextAnalysis` produces: the
response, the cache state it leaves behind, and whether it invoked the
Gateway (`makeApiRequest`). -/
structure HandlerOutcome where
  response : Response
  cache : CacheMap String AnalysisResult
  gatewayCalled : Bool
deriving Repr

/-- `handleTextAnalysis(data, sendResponse)` run to completion without
interleaving: check the cache under the fragment's cache key; on a
fresh hit respond with the cached result and skip the Gateway; on a
miss invoke the Gateway, cache a success, and turn a thrown error into
a `{success:false}` response without touching the cache.  (The module
also declares `const pendingRequests = new Map()`, but no code ever
reads or writes it, so it does not appear in this embedding.) -/
def handleTextAnalysis (text : List ℕ) (threshold ageGroup : String)
    (cache : CacheMap String AnalysisResult) (now : ℕ)
    (gateway : GatewayOutcome) : HandlerOutcome :=
  let cacheKey := mkTextCacheKey text threshold ageGroup
  match getFromCache cache cacheKey now with
  | (some cached, cache₁) => ⟨.success cached, cache₁, false⟩
  | (none, cache₁) =>
      match gateway with
      | .ok result => ⟨.success result, setCache cache₁ cacheKey result now, true⟩
      | .error e => ⟨.failure e, cache₁, true⟩

/-- `ContentScanner.analyzeText` dispatches the
`ai-firewall-unsafe-content` event exactly when the background
response has `success` and the result is not safe. -/
def analyzeTextDispatchesUnsafe (response : Response) : Bool :=
  match response with
  | .success result => ¬ result.is_safe
  | .failure _ => false

/-! ## Interleaved executions of the analysis handlers (C1)

A handler has exactly one suspension point, the `await makeApiRequest`
on a cache miss.  An overlapped execution of several handler calls is
therefore a schedule of atomic segments: segment A (start up to the
`await`: cache check, and on a miss the Gateway invocation) and segment
B (after the `await`: `setCache` and the response).  The shared state —
`analysisCache` and the number of Gateway invocations — is touched only
inside a segment, matching the single-threaded run-to-completion model
of the service worker. -/

/-- Where one in-flight handler call stands. -/
inductive TaskPhase where
  | ready
  | waiting
  | finished (response : Response)
deriving DecidableEq, Repr

/-- One handler call: its cache key (the fragment's fingerprint under
the active policy) and its phase. -/
structure TaskState where
  key : String
  phase : TaskPhase
deriving DecidableEq, Repr

/-- The shared service-worker state plus the in-flight handler calls. -/
structure Sys where
  cache : CacheMap String AnalysisResult
  gatewayCalls : ℕ
  tasks : List TaskState
deriving Repr

/-- Run the next atomic segment of task `i` (no-op when `i` is out of
range or the task is finished).  `gw` is the Gateway's reply for this
task's request; `now` the clock during the segment. -/
def stepTask (gw : AnalysisResult) (now : ℕ) (sys : Sys) (i : ℕ) : Sys :=
  match sys.tasks[i]? with
  | none => sys
  | some t =>
    match t.phase with
    | .ready =>
        match getFromCache sys.cache t.key now with
        | (some cached, cache') =>
            { sys with
              cache := cache'
              tasks := sys.tasks.set i { t with phase := .finished (.success cached) } }
        | (none, cache') =>
            { sys with
              cache := cache'
              gatewayCalls := sys.gatewayCalls + 1
              tasks := sys.tasks.set i { t with phase := .waiting } }
    | .waiting =>
        { sys with
          cache := setCache sys.cache t.key gw now
          tasks := sys.tasks.set i { t with phase := .finished (.success gw) } }
    | .finished _ => sys

/-- Run a whole schedule of task segments. -/
def runSchedule (gw : AnalysisResult) (now : ℕ) (sys : Sys) (sched : List ℕ) : Sys :=
  sched.foldl (stepTask gw now) sys

/-! ## The content scanner (content-scanner.js)

A page element as the scanner sees it.  `closest(ignoreSelectors)` is
modelled by the element's own tag/classes plus an `ancestorIgnored`
flag (whether some ancestor matches the ignore selectors); the
`data-ai-firewall-processed` attribute is the mutable `processedAttr`
field. -/
structure DomElem where
  id : ℕ
  tag : String
  classes : List String
  ancestorIgnored : Bool
  hidden : Bool
  processedAttr : Bool
  textLen : ℕ
  hasAlpha : Bool
deriving DecidableEq, Repr

/-- `classList.add`: append the class when absent, no-op otherwise. -/
def addClass (e : DomElem) (c : String) : DomElem :=
  if e.classes.contains c then e else { e with classes := e.classes ++ [c] }

/-- The tag names in `ignoreSelectors`. -/
def ignoreTags : List String :=
  ["script", "style", "noscript", "meta", "link", "title"]

/-- Whether the element itself matches `ignoreSelectors`
(`script, style, …, .ai-firewall-blocked, .ai-firewall-safe`). -/
def matchesIgnoreSelf (e : DomElem) : Bool :=
  ignoreTags.contains e.tag ||
    e.classes.contains "ai-firewall-blocked" ||
    e.classes.contains "ai-firewall-safe"

/-- `ContentScanner.shouldIgnoreElement`: `closest(ignoreSelectors)`
(self or an ancestor), then the processed mark, then computed-style
visibility. -/
def shouldIgnoreElement (e : DomElem) : Bool :=
  matchesIgnoreSelf e || e.ancestorIgnored || e.processedAttr || e.hidden

/-- `ContentScanner.shouldAnalyzeText`: length in bounds and at least
one alphabetic character. -/
def shouldAnalyzeText (e : DomElem) : Bool :=
  if e.textLen < 5 || 5000 < e.textLen then false
  else if ¬ e.hasAlpha then false
  else true

/-- The scanner's state: the live page store (nodes addressed by
position, the position standing for the node's object identity) and
the positions queued for analysis so far, in order.  One position
queued twice would be the same node queued twice. -/
structure ScanState where
  store : List DomElem
  queued : List ℕ
deriving DecidableEq, Repr

/-- Visiting one element (one iteration of the `forEach` in
`scanTextContent` / `scanGoogleSearchResults` / `scanNewElement`):
skip when `shouldIgnoreElement` or the text filter rejects it;
otherwise queue it.  Queueing an element marks it processed in the
same atomic step: `queueTextAnalysis` pushes the item and calls
`processQueue`, whose synchronous prefix (`shift` +
`setAttribute('data-ai-firewall-processed')`) runs to the `await`
before the scan loop continues, and the queue is empty at every push,
so the shifted item is the pushed one. -/
def scanVisit (s : ScanState) (i : ℕ) : ScanState :=
  match s.store[i]? with
  | none => s
  | some e =>
      if shouldIgnoreElement e then s
      else if shouldAnalyzeText e then
        { store := s.store.set i { e with processedAttr := true }
          queued := s.queued ++ [i] }
      else s

/-- Run a whole discovery pass: visit the listed positions in order.
A position may occur several times (the same node reached through
several selector queries or discovery paths), and two passes over a
static page are the concatenation of the same visit list with
itself. -/
def runVisits (s : ScanState) (visits : List ℕ) : ScanState :=
  visits.foldl scanVisit s

/-- Whether a visit to the given (possibly absent) element is a
no-op: the position is empty, the element is ignored, or the text
filter rejects it.  This is the visit's complete decision logic, so a
visit either skips, or queues and marks. -/
def visitSkips (o : Option DomElem) : Bool :=
  match o with
  | none => true
  | some e => shouldIgnoreElement e || !(shouldAnalyzeText e)

/-! ## The DOM manipulator (dom-manipulator.js)

The affected part of the page is modelled as the ordered child list of
one parent node; `replaceChild(new, old)` swaps `old` for `new` at its
position.  A replacement placeholder (the `div.ai-firewall-blocked`
container built by `createReplacementElement`) is identified by a
fresh number, standing for the new object's identity. -/

/-- A node of the page: an ordinary element, or a replacement
placeholder inserted by `replaceContent`. -/
inductive PageNode where
  | elem (e : DomElem)
  | placeholder (pid : ℕ)
deriving DecidableEq, Repr

/-- `parentNode.replaceChild(new, old)`: swap the first occurrence of
`old` for `new`. -/
def replaceChild (page : List PageNode) (newNode oldNode : PageNode) : List PageNode :=
  match page with
  | [] => []
  | n :: rest =>
      if n = oldNode then newNode :: rest
      else n :: replaceChild rest newNode oldNode

/-- The `DOMManipulator` instance state: the page, the
`blockedElements` set (element identities), the
`replacementElements` map (replacement → original), and a counter
generating fresh placeholder identities. -/
structure DMState where
  page : List PageNode
  blockedElements : List ℕ
  replacementElements : List (ℕ × DomElem)
  nextPid : ℕ
deriving DecidableEq, Repr

/-- `DOMManipulator.replaceContent`: build the replacement element,
record it in `replacementElements`, and swap it into the page in place
of the original. -/
def replaceContent (st : DMState) (element : DomElem) : DMState :=
  let pid := st.nextPid
  { page := replaceChild st.page (.placeholder pid) (.elem element)
    blockedElements := st.blockedElements
    replacementElements := st.replacementElements ++ [(pid, element)]
    nextPid := pid + 1 }

/-- `DOMManipulator.blurContent`: add the `ai-firewall-blurred` class
to the element in place (no structural swap; the click-to-reveal
handler and the tooltip have no structural effect). -/
def blurContent (st : DMState) (element : DomElem) : DMState :=
  { st with
    page := replaceChild st.page (.elem (addClass element "ai-firewall-blurred")) (.elem element) }

/-- `DOMManipulator.hideContent`: set `display:none` on the element
(modelled by `hidden := true`) and insert a show button before it,
modelled as a fresh placeholder node. -/
def hideContent (st : DMState) (element : DomElem) : DMState :=
  let pid := st.nextPid
  { st with
    page :=
      (replaceChild st.page (.elem { element with hidden := true }) (.elem element)).flatMap
        (fun n => if n = .elem { element with hidden := true } then
            [.placeholder pid, n] else [n])
    nextPid := pid + 1 }

/-- `DOMManipulator.handleUnsafeContent`: a silent no-op when the
element is already in `blockedElements`; otherwise record it and apply
the method chosen by `getBlockingMethod` (the `switch` has a `default`
branch identical to the `'replace'` branch). -/
def handleUnsafeContent (st : DMState) (element : DomElem) (ty : ContentKind)
    (analysisResult : AnalysisResult) : DMState :=
  if st.blockedElements.contains element.id then
    st
  else
    let st := { st with blockedElements := st.blockedElements ++ [element.id] }
    match getBlockingMethod ty analysisResult with
    | .replace => replaceContent st element
    | .blur => blurContent st element
    | .hide => hideContent st element

/-- `DOMManipulator.showOriginalContent(replacement, originalElement)`:
when the user confirms, put the original element back in the
replacement's place, add the `ai-firewall-safe` class to it (the JS
mutates the very object that was just re-inserted, so the page holds
the marked element), and drop the tracking entries; when the user
declines, do nothing. -/
def showOriginalContent (st : DMState) (pid : ℕ) (originalElement : DomElem)
    (confirmed : Bool) : DMState :=
  if confirmed then
    { page := replaceChild st.page (.elem (addClass originalElement "ai-firewall-safe"))
        (.placeholder pid)
      blockedElements := st.blockedElements.filter (fun j => ¬ (j == originalElement.id))
      replacementElements := st.replacementElements.filter (fun p => ¬ (p.1 == pid))
      nextPid := st.nextPid }
  else st

/-- The tail of the per-fragment pipeline once the background response
for the fragment has arrived: `ContentScanner.analyzeText` dispatches
the unsafe-content event only for a successful, unsafe result, and the
event is handled by `DOMManipulator.handleUnsafeContent`; on a failure
response nothing happens to the page or to the tracking state. -/
def contentPipelineAfterResponse (st : DMState) (elem : DomElem) (ty : ContentKind)
    (response : Response) : DMState :=
  match response with
  | .success result =>
      if ¬ result.is_safe then handleUnsafeContent st elem ty result else st
  | .failure _ => st

/-! ## The trusted-site allowlist (content-scanner.js) -/

/-- Whether `hay` starts with `needle` (character lists). -/
def listStartsWith : List Char → List Char → Bool
  | _, [] => true
  | [], _ :: _ => false
  | c :: cs, d :: ds => c == d && listStartsWith cs ds

/-- Whether `needle` occurs contiguously inside `hay`. -/
def listContainsSub : List Char → List Char → Bool
  | [], needle => needle.isEmpty
  | c :: cs, needle => listStartsWith (c :: cs) needle || listContainsSub cs needle

/-- JS `String.prototype.includes`. -/
def strIncludes (s sub : String) : Bool :=
  listContainsSub s.data sub.data

/-- `ContentScanner.isAllowlisted`: some allowlist entry is a
substring of the hostname, or the hostname is a substring of the
entry. -/
def isAllowlisted (hostname : String) (allowlist : List String) : Bool :=
  allowlist.any (fun domain => strIncludes hostname domain || strIncludes domain hostname)

/-- What a call to `ContentScanner.startScanning` does: whether the
discovery pass ran, and which fragments it queued. -/
structure ScanOutcome where
  scanned : Bool
  queued : List ℕ
deriving DecidableEq, Repr

/-- `ContentScanner.startScanning`: return immediately when already
scanning; otherwise, on an allowlisted site, return before any
discovery; otherwise run the discovery pass over the page
(`scanExistingContent`, modelled by its visit sequence). -/
def startScanning (isScanning : Bool) (hostname : String) (allowlist : List String)
    (store : List DomElem) (visits : List ℕ) : ScanOutcome :=
  if isScanning then ⟨false, []⟩
  else if isAllowlisted hostname allowlist then ⟨false, []⟩
  else ⟨true, (runVisits ⟨store, []⟩ visits).queued⟩

/-- One tick of `ContentScanner.continuousScanning`'s interval: rescan
via `scanExistingContent` unless the site is allowlisted. -/
def continuousScanningTick (hostname : String) (allowlist : List String)
    (store : List DomElem) (visits : List ℕ) : ScanOutcome :=
  if ¬ isAllowlisted hostname allowlist then
    ⟨true, (runVisits ⟨store, []⟩ visits).queued⟩
  else ⟨false, []⟩

/-! ## `ContentScanner.getThreshold` -/

/-- The threshold table of `getThreshold`, per content kind. -/
def thresholdTable (ty : ContentKind) : List (String × ℚ) :=
  match ty with
  | .text => [("mild", mkRat 8 10), ("moderate", mkRat 6 10), ("strict", mkRat 4 10)]
  | .image => [("mild", mkRat 7 10), ("moderate", mkRat 5 10), ("strict", mkRat 3 10)]

/-- `ContentScanner.getThreshold(type)`:
`thresholds[type][level] || 0.6`.  `level` is
`settings.filteringLevel`, possibly absent (`none`); since every table
value is truthy (non-zero), `|| 0.6` fires exactly on a missed
lookup. -/
def getThreshold (ty : ContentKind) (level : Option String) : ℚ :=
  match level.bind (fun l => ((thresholdTable ty).find? (fun p => p.1 == l)).map (·.2)) with
  | some v => v
  | none => mkRat 6 10

/-! ## Concrete fixtures used by the closed theorems below -/

/-- Distinct cache keys for the C5 witness: the key of index `i` has
`i` characters, so different indices give different keys. -/
def c5Key (i : ℕ) : String := ⟨List.replicate i 'a'⟩

/-- A concrete cache filled to `MAX_CACHE_SIZE` with distinct keys. -/
def c5BigCache : CacheMap String AnalysisResult :=
  (List.range 1000).map (fun i => (c5Key i, ⟨⟨true, 0, none⟩, i⟩))

/-- The Gateway reply used in the C1 execution. -/
def c1Result : AnalysisResult := ⟨true, 0, none⟩

/-- The shared cache key of the two C1 calls: both carry the same
text, threshold and age group, so both hash to the same key. -/
def c1Key : String := mkTextCacheKey [104, 105] "0.6" "moderate"

/-- Two analysis calls for the same fingerprint, neither yet started,
over an empty cache. -/
def c1Sys : Sys := ⟨[], 0, [⟨c1Key, .ready⟩, ⟨c1Key, .ready⟩]⟩

/-- A concrete page store for the C9 theorems: one eligible text
element. -/
def c9Store : List DomElem := [⟨1, "p", [], false, false, false, 20, true⟩]

/-- A concrete blocked-then-revealed element for the C7 theorems: a
paragraph that was queued (hence carries the processed mark) and then
flagged. -/
def c7Orig : DomElem := ⟨7, "p", ["c"], false, false, true, 20, true⟩

/-- A concrete page store for the C3 witness: an eligible paragraph, a
too-short paragraph, and a script node. -/
def c3Store : List DomElem :=
  [⟨1, "p", [], false, false, false, 20, true⟩,
   ⟨2, "p", [], false, false, false, 3, true⟩,
   ⟨3, "script", [], false, false, false, 20, true⟩]

/-! ## Association-list facts about the `Map` embedding -/

section MapLemmas

variable {κ α : Type} [BEq κ] [LawfulBEq κ]

theorem mapGet_mapDelete_self (m : CacheMap κ α) (k : κ) :
    mapGet (mapDelete m k) k = none := by
  simp only [mapGet, mapDelete, Option.map_eq_none']
  rw [List.find?_eq_none]
  intro x hx
  simp only [List.mem_filter, decide_not] at hx
  simpa using hx.2

theorem find?_map_update (m : CacheMap κ α) (k : κ) (v : CacheEntry α) :
    (m.map (fun p => if p.1 == k then (p.1, v) else p)).find? (fun p => p.1 == k) =
      (m.find? (fun p => p.1 == k)).map (fun p => (p.1, v)) := by
  induction m with
  | nil => rfl
  | cons p rest ih =>
      by_cases hp : p.1 == k
      · simp [List.find?_cons, hp, ih]
      · simp only [List.map_cons, List.find?_cons, hp, if_neg, Bool.false_eq_true,
          not_false_eq_true, ite_false]
        simpa [hp] using ih

theorem mapGet_mapSet_self (m : CacheMap κ α) (k : κ) (v : CacheEntry α) :
    mapGet (mapSet m k v) k = some v := by
  unfold mapGet mapSet
  by_cases h : m.any (fun p => p.1 == k)
  · rw [if_pos h, find?_map_update]
    rcases List.any_eq_true.mp h with ⟨q, hq, hq2⟩
    cases hf : m.find? (fun p => p.1 == k) with
    | none =>
        rw [List.find?_eq_none] at hf
        exact absurd hq2 (hf q hq)
    | some q' => simp
  · rw [if_neg h, List.find?_append]
    have hnone : m.find? (fun p => p.1 == k) = none := by
      rw [List.find?_eq_none]
      intro x hx hcontra
      exact h (List.any_eq_true.mpr ⟨x, hx, hcontra⟩)
    simp [hnone, List.find?_cons]

theorem length_mapSet_le (m : CacheMap κ α) (k : κ) (v : CacheEntry α) :
    (mapSet m k v).length ≤ m.length + 1 := by
  unfold mapSet
  split
  · simp
  · simp

theorem mapDelete_cons_head (p : κ × CacheEntry α) (rest : CacheMap κ α) :
    mapDelete (p :: rest) p.1 = mapDelete rest p.1 := by
  simp [mapDelete, List.filter_cons]

end MapLemmas

/-! ## Theorems -/

/-- C5: the analysis cache never exceeds `MAX_CACHE_SIZE` entries.  An
insertion performed at the limit first evicts exactly the single
oldest-inserted entry (the map's first entry) and only then inserts,
so (1) a `setCache` call on a within-bound cache leaves it within
bound, (2) any sequence of `setCache` insertions starting from the
empty cache stays within bound throughout (stated for every prefix of
the sequence), and (3) at the limit the result is exactly the insertion
into the cache with its oldest entry dropped. -/
theorem setCache_bounded_fifo :
    (∀ (m : CacheMap String AnalysisResult) k d t, m.length ≤ MAX_CACHE_SIZE →
      (setCache m k d t).length ≤ MAX_CACHE_SIZE) ∧
    (∀ ops : List (String × AnalysisResult × ℕ),
      (ops.foldl (fun m op => setCache m op.1 op.2.1 op.2.2)
        ([] : CacheMap String AnalysisResult)).length ≤ MAX_CACHE_SIZE) ∧
    (∀ (m : CacheMap String AnalysisResult) k d t, m.length = MAX_CACHE_SIZE →
      (m.map Prod.fst).Nodup → setCache m k d t = mapSet m.tail k ⟨d, t⟩) := by
  have step : ∀ (m : CacheMap String AnalysisResult) k d t, m.length ≤ MAX_CACHE_SIZE →
      (setCache m k d t).length ≤ MAX_CACHE_SIZE := by
    intro m k d t h
    unfold setCache
    by_cases hfull : MAX_CACHE_SIZE ≤ m.length
    · cases m with
      | nil => simp [MAX_CACHE_SIZE] at hfull
      | cons p rest =>
          simp only [if_pos hfull, List.head?_cons]
          calc (mapSet (mapDelete (p :: rest) p.1) k ⟨d, t⟩).length
              ≤ (mapDelete (p :: rest) p.1).length + 1 := length_mapSet_le _ _ _
            _ = (mapDelete rest p.1).length + 1 := by rw [mapDelete_cons_head]
            _ ≤ rest.length + 1 := by
                have h2 : (mapDelete rest p.1).length ≤ rest.length :=
                  List.length_filter_le _ rest
                omega
            _ = (p :: rest).length := by simp
            _ ≤ MAX_CACHE_SIZE := h
    · simp only [if_neg hfull]
      calc (mapSet m k ⟨d, t⟩).length ≤ m.length + 1 := length_mapSet_le _ _ _
        _ ≤ MAX_CACHE_SIZE := by omega
  refine ⟨step, ?_, ?_⟩
  · intro ops
    suffices h : ∀ (m : CacheMap String AnalysisResult), m.length ≤ MAX_CACHE_SIZE →
        (ops.foldl (fun m op => setCache m op.1 op.2.1 op.2.2) m).length ≤ MAX_CACHE_SIZE by
      exact h [] (by simp [MAX_CACHE_SIZE])
    induction ops with
    | nil => intro m h; simpa using h
    | cons op rest ih =>
        intro m h
        exact ih _ (step m op.1 op.2.1 op.2.2 h)
  · intro m k d t hlen hnd
    cases m with
    | nil => simp [MAX_CACHE_SIZE] at hlen
    | cons p rest =>
        unfold setCache
        rw [if_pos (le_of_eq hlen.symm)]
        simp only [List.head?_cons, List.tail_cons]
        rw [mapDelete_cons_head]
        congr 1
        rw [mapDelete, List.filter_eq_self]
        intro q hq
        simp only [List.map_cons, List.nodup_cons, List.mem_map] at hnd
        have : q.1 ≠ p.1 := by
          intro hqp
          exact hnd.1 ⟨q, hq, hqp⟩
        simpa using this

/-- Witness for `setCache_bounded_fifo`: inserting a fresh key into the
full concrete cache keeps the bound and evicts exactly the oldest
entry. -/
theorem setCache_bounded_fifo_witness :
    (setCache c5BigCache (c5Key 1000) ⟨true, 0, none⟩ 7).length ≤ MAX_CACHE_SIZE ∧
    setCache c5BigCache (c5Key 1000) ⟨true, 0, none⟩ 7 =
      mapSet c5BigCache.tail (c5Key 1000) ⟨⟨true, 0, none⟩, 7⟩ := by
  have hlen : c5BigCache.length = MAX_CACHE_SIZE := by
    simp [c5BigCache, MAX_CACHE_SIZE]
  have hinj : Function.Injective c5Key := by
    intro a b h
    have := congrArg (fun s => s.data.length) h
    simpa [c5Key] using this
  have hnd : (c5BigCache.map Prod.fst).Nodup := by
    have : c5BigCache.map Prod.fst = (List.range 1000).map c5Key := by
      simp [c5BigCache, List.map_map]
    rw [this]
    exact (List.nodup_range 1000).map hinj
  exact ⟨setCache_bounded_fifo.1 c5BigCache (c5Key 1000) ⟨true, 0, none⟩ 7 (le_of_eq hlen),
    setCache_bounded_fifo.2.2 c5BigCache (c5Key 1000) ⟨true, 0, none⟩ 7 hlen hnd⟩

/-- C6: `getFromCache` returns a stored result exactly when the entry
at the key was inserted less than `CACHE_DURATION` before the lookup
(the age test is strict and `setCache` stamps the insertion time); a
too-old entry is deleted and treated as absent; and at the handler
level a fresh cached entry is answered without any Gateway request
while the absence of a fresh entry forces a Gateway request. -/
theorem cache_freshness_window :
    (∀ (m : CacheMap String AnalysisResult) key now d,
      (getFromCache m key now).1 = some d ↔
        ∃ e, mapGet m key = some e ∧ now - e.timestamp < CACHE_DURATION ∧ e.data = d) ∧
    (∀ (m : CacheMap String AnalysisResult) key now e, mapGet m key = some e →
      CACHE_DURATION ≤ now - e.timestamp →
      getFromCache m key now = (none, mapDelete m key)) ∧
    (∀ (m : CacheMap String AnalysisResult) k d t,
      mapGet (setCache m k d t) k = some ⟨d, t⟩) ∧
    (∀ text thr ag cache now gw e,
      mapGet cache (mkTextCacheKey text thr ag) = some e →
      now - e.timestamp < CACHE_DURATION →
      handleTextAnalysis text thr ag cache now gw = ⟨.success e.data, cache, false⟩) ∧
    (∀ text thr ag cache now gw,
      (∀ e, mapGet cache (mkTextCacheKey text thr ag) = some e →
        CACHE_DURATION ≤ now - e.timestamp) →
      (handleTextAnalysis text thr ag cache now gw).gatewayCalled = true) := by
  refine ⟨?_, ?_, ?_, ?_, ?_⟩
  · intro m key now d
    unfold getFromCache
    cases hm : mapGet m key with
    | none => simp
    | some e =>
        by_cases hage : now - e.timestamp < CACHE_DURATION
        · simp only [if_pos hage]
          constructor
          · rintro h
            exact ⟨e, rfl, hage, by simpa using h⟩
          · rintro ⟨e', he', _, hd⟩
            simp only [Option.some.injEq] at he'
            rw [he', hd]
        · simp only [if_neg hage]
          constructor
          · rintro ⟨⟩
          · rintro ⟨e', he', hage', _⟩
            simp only [Option.some.injEq] at he'
            exact absurd (he' ▸ hage') hage
  · intro m key now e hm hage
    unfold getFromCache
    rw [hm]
    simp [Nat.not_lt.mpr hage]
  · intro m k d t
    unfold setCache
    exact mapGet_mapSet_self _ _ _
  · intro text thr ag cache now gw e hm hage
    have hg : getFromCache cache (mkTextCacheKey text thr ag) now = (some e.data, cache) := by
      unfold getFromCache
      rw [hm]
      simp [hage]
    simp [handleTextAnalysis, hg]
  · intro text thr ag cache now gw h
    have hg : getFromCache cache (mkTextCacheKey text thr ag) now =
        (none, mapDelete cache (mkTextCacheKey text thr ag)) := by
      unfold getFromCache
      cases hm : mapGet cache (mkTextCacheKey text thr ag) with
      | none => rfl
      | some e => simp [Nat.not_lt.mpr (h e hm)]
    cases gw <;> simp [handleTextAnalysis, hg]

/-- Witness for `cache_freshness_window`: a concrete one-entry cache,
looked up inside the window (no Gateway) and outside it (Gateway
invoked). -/
theorem cache_freshness_window_witness :
    (getFromCache ([("k", ⟨⟨true, 0, none⟩, 10⟩)] : CacheMap String AnalysisResult)
        "k" 20).1 = some ⟨true, 0, none⟩ ∧
    handleTextAnalysis [104] "0.6" "kids"
        [(mkTextCacheKey [104] "0.6" "kids", ⟨⟨true, 0, none⟩, 10⟩)] 20
        (.error "network") =
      ⟨.success ⟨true, 0, none⟩, [(mkTextCacheKey [104] "0.6" "kids", ⟨⟨true, 0, none⟩, 10⟩)],
        false⟩ ∧
    (handleTextAnalysis [104] "0.6" "kids" [] 20 (.ok ⟨true, 0, none⟩)).gatewayCalled = true ∧
    getFromCache ([("k", ⟨⟨true, 0, none⟩, 10⟩)] : CacheMap String AnalysisResult)
        "k" (10 + CACHE_DURATION) = (none, []) := by
  refine ⟨?_, ?_, ?_, ?_⟩
  · exact (cache_freshness_window.1 _ "k" 20 _).mpr
      ⟨⟨⟨true, 0, none⟩, 10⟩, by decide, by decide, rfl⟩
  · exact cache_freshness_window.2.2.2.1 [104] "0.6" "kids" _ 20 (.error "network")
      ⟨⟨true, 0, none⟩, 10⟩ (by rw [mapGet]; simp [List.find?_cons]) (by decide)
  · exact cache_freshness_window.2.2.2.2 [104] "0.6" "kids" [] 20 (.ok ⟨true, 0, none⟩)
      (by intro e he; cases he)
  · exact cache_freshness_window.2.1 _ "k" (10 + CACHE_DURATION) ⟨⟨true, 0, none⟩, 10⟩
      (by decide) (by simp [CACHE_DURATION])

/-- C4: when the Gateway request for a fragment fails (network error
or non-`ok` status, both thrown by `makeApiRequest`), the handler
answers `{success:false, error}` instead of letting the exception
escape, the failure is not written to the cache (the cache is exactly
what the lookup left behind, with no entry under the fragment's key),
no unsafe-content event is dispatched for the failure response, and
the fragment pipeline leaves the page and the blocking state
untouched (no blocked-element record). -/
theorem gateway_failure_fail_open (text : List ℕ) (thr ag : String)
    (cache : CacheMap String AnalysisResult) (now : ℕ) (err : String)
    (hmiss : (handleTextAnalysis text thr ag cache now (.error err)).gatewayCalled = true) :
    (handleTextAnalysis text thr ag cache now (.error err)).response = .failure err ∧
    (handleTextAnalysis text thr ag cache now (.error err)).cache =
      (getFromCache cache (mkTextCacheKey text thr ag) now).2 ∧
    mapGet (handleTextAnalysis text thr ag cache now (.error err)).cache
      (mkTextCacheKey text thr ag) = none ∧
    analyzeTextDispatchesUnsafe
      (handleTextAnalysis text thr ag cache now (.error err)).response = false ∧
    (∀ st elem ty, contentPipelineAfterResponse st elem ty
      (handleTextAnalysis text thr ag cache now (.error err)).response = st) := by
  cases hg : getFromCache cache (mkTextCacheKey text thr ag) now with
  | mk hit cache₁ =>
    cases hit with
    | some cached =>
        have : (handleTextAnalysis text thr ag cache now (.error err)).gatewayCalled = false := by
          simp [handleTextAnalysis, hg]
        rw [this] at hmiss
        cases hmiss
    | none =>
        have heq : handleTextAnalysis text thr ag cache now (.error err) =
            ⟨.failure err, cache₁, true⟩ := by
          simp [handleTextAnalysis, hg]
        have hdel : cache₁ = mapDelete cache (mkTextCacheKey text thr ag) := by
          unfold getFromCache at hg
          cases hm : mapGet cache (mkTextCacheKey text thr ag) with
          | none =>
              rw [hm] at hg
              exact ((Prod.mk.injEq _ _ _ _).mp hg).2.symm
          | some e =>
              rw [hm] at hg
              by_cases hage : now - e.timestamp < CACHE_DURATION
              · simp [hage] at hg
              · simp only [if_neg hage, Prod.mk.injEq] at hg
                exact hg.2.symm
        rw [heq]
        refine ⟨rfl, rfl, ?_, rfl, fun st elem ty => rfl⟩
        · rw [hdel]
          exact mapGet_mapDelete_self _ _

/-- Witness for `gateway_failure_fail_open`: a concrete failing call on
an empty cache leaves everything untouched and surfaces the error. -/
theorem gateway_failure_fail_open_witness :
    (handleTextAnalysis [104] "0.6" "kids" [] 0 (.error "API request failed: 500")).response =
      .failure "API request failed: 500" ∧
    (handleTextAnalysis [104] "0.6" "kids" [] 0
      (.error "API request failed: 500")).cache = [] ∧
    contentPipelineAfterResponse ⟨[], [], [], 0⟩ ⟨1, "p", [], false, false, false, 9, true⟩ .text
      (handleTextAnalysis [104] "0.6" "kids" [] 0
        (.error "API request failed: 500")).response = ⟨[], [], [], 0⟩ := by
  have h := gateway_failure_fail_open [104] "0.6" "kids" [] 0 "API request failed: 500"
    (by decide)
  exact ⟨h.1, by rw [h.2.1]; rfl,
    h.2.2.2.2 ⟨[], [], [], 0⟩ ⟨1, "p", [], false, false, false, 9, true⟩ .text⟩

/-- C2: `getBlockingMethod` is a deterministic function of the
verdict's confidence and flagged categories (the content type does not
influence it): confidence above 0.8 or a severe category
(`severe_toxic`) gives `replace`; otherwise confidence in the middle
band (strictly above 0.6, at most 0.8) gives `blur`; every other case
gives `replace`; `hide` is never returned.  In particular confidence
0.85 with a severe category gives `replace`, confidence 0.65 gives
`blur`, and confidence 0.3 gives `replace`. -/
theorem getBlockingMethod_rule :
    (∀ ty ty' r, getBlockingMethod ty r = getBlockingMethod ty' r) ∧
    (∀ ty r, (mkRat 8 10 < r.confidence ∨
        (r.flagged_categories.getD []).contains "severe_toxic" = true) →
      getBlockingMethod ty r = .replace) ∧
    (∀ ty r, r.confidence ≤ mkRat 8 10 →
      (r.flagged_categories.getD []).contains "severe_toxic" = false →
      mkRat 6 10 < r.confidence →
      getBlockingMethod ty r = .blur) ∧
    (∀ ty r, r.confidence ≤ mkRat 6 10 →
      (r.flagged_categories.getD []).contains "severe_toxic" = false →
      getBlockingMethod ty r = .replace) ∧
    (∀ ty r, getBlockingMethod ty r ≠ .hide) ∧
    getBlockingMethod .text ⟨false, mkRat 85 100, some ["severe_toxic"]⟩ = .replace ∧
    getBlockingMethod .text ⟨false, mkRat 65 100, none⟩ = .blur ∧
    getBlockingMethod .text ⟨false, mkRat 3 10, none⟩ = .replace := by
  refine ⟨?_, ?_, ?_, ?_, ?_, by decide, by decide, by decide⟩
  · intro ty ty' r
    rfl
  · intro ty r h
    have h' : r.confidence > mkRat 8 10 ∨
        (r.flagged_categories.getD []).contains "severe_toxic" = true := h
    simp only [getBlockingMethod]
    rw [if_pos h']
  · intro ty r h1 h2 h3
    simp only [getBlockingMethod]
    rw [if_neg, if_pos h3]
    rintro (hc | hcat)
    · exact absurd h1 (not_le.mpr hc)
    · rw [h2] at hcat
      cases hcat
  · intro ty r h1 h2
    simp only [getBlockingMethod]
    rw [if_neg, if_neg (not_lt.mpr h1)]
    rintro (hc | hcat)
    · exact absurd (le_trans h1 (by norm_num)) (not_le.mpr hc)
    · rw [h2] at hcat
      cases hcat
  · intro ty r
    simp only [getBlockingMethod]
    split
    · exact fun h => by cases h
    · split
      · exact fun h => by cases h
      · exact fun h => by cases h

/-- Witness for `getBlockingMethod_rule`: concrete verdicts exercising
each branch through the theorem. -/
theorem getBlockingMethod_rule_witness :
    getBlockingMethod .image ⟨false, mkRat 9 10, none⟩ = .replace ∧
    getBlockingMethod .image ⟨false, mkRat 7 10, some ["toxic"]⟩ = .blur ∧
    getBlockingMethod .image ⟨false, mkRat 1 10, some ["toxic"]⟩ = .replace ∧
    getBlockingMethod .image ⟨false, mkRat 5 10, some ["severe_toxic"]⟩ = .replace := by
  refine ⟨?_, ?_, ?_, ?_⟩
  · exact getBlockingMethod_rule.2.1 .image ⟨false, mkRat 9 10, none⟩ (Or.inl (by decide))
  · exact getBlockingMethod_rule.2.2.1 .image ⟨false, mkRat 7 10, some ["toxic"]⟩
      (by norm_num) (by decide) (by norm_num)
  · exact getBlockingMethod_rule.2.2.2.1 .image ⟨false, mkRat 1 10, some ["toxic"]⟩
      (by norm_num) (by decide)
  · exact getBlockingMethod_rule.2.1 .image ⟨false, mkRat 5 10, some ["severe_toxic"]⟩
      (Or.inr (by decide))

/-- C10: `getThreshold` returns the table value for the recognized
filtering levels and the fallback `0.6` for every other level,
including an absent setting. -/
theorem getThreshold_table_and_fallback :
    (getThreshold .text (some "mild") = mkRat 8 10 ∧
     getThreshold .text (some "moderate") = mkRat 6 10 ∧
     getThreshold .text (some "strict") = mkRat 4 10 ∧
     getThreshold .image (some "mild") = mkRat 7 10 ∧
     getThreshold .image (some "moderate") = mkRat 5 10 ∧
     getThreshold .image (some "strict") = mkRat 3 10) ∧
    (∀ ty level, (∀ l, level = some l → l ≠ "mild" ∧ l ≠ "moderate" ∧ l ≠ "strict") →
      getThreshold ty level = mkRat 6 10) := by
  refine ⟨⟨by decide, by decide, by decide, by decide, by decide, by decide⟩, ?_⟩
  intro ty level h
  cases level with
  | none => cases ty <;> rfl
  | some l =>
      obtain ⟨h1, h2, h3⟩ := h l rfl
      have b1 : ("mild" == l) = false := by
        simpa using fun hl => h1 hl.symm
      have b2 : ("moderate" == l) = false := by
        simpa using fun hl => h2 hl.symm
      have b3 : ("strict" == l) = false := by
        simpa using fun hl => h3 hl.symm
      cases ty <;>
        simp [getThreshold, thresholdTable, List.find?_cons, b1, b2, b3]

/-- Witness for `getThreshold_table_and_fallback`: the levels
`'disabled'` and an absent setting fall back to `0.6`. -/
theorem getThreshold_table_and_fallback_witness :
    getThreshold .text (some "disabled") = mkRat 6 10 ∧
    getThreshold .image none = mkRat 6 10 := by
  constructor
  · exact getThreshold_table_and_fallback.2 .text (some "disabled")
      (by intro l hl; cases hl; exact ⟨by decide, by decide, by decide⟩)
  · exact getThreshold_table_and_fallback.2 .image none (by intro l hl; cases hl)

/-- C1 fails on the code: `pendingRequests` is declared but never
consulted, so nothing coalesces overlapping identical requests.  In
the overlapped schedule (both calls pass their cache check before
either response is cached) the two calls with the identical cache key
invoke the Gateway twice, not once; only the fully sequential schedule
(the second call starts after the first completed and cached) results
in a single invocation.  Both schedules finish both tasks. -/
theorem no_request_coalescing :
    (runSchedule c1Result 0 c1Sys [0, 1, 0, 1]).gatewayCalls = 2 ∧
    (runSchedule c1Result 0 c1Sys [0, 1, 0, 1]).tasks =
      [⟨c1Key, .finished (.success c1Result)⟩, ⟨c1Key, .finished (.success c1Result)⟩] ∧
    (runSchedule c1Result 0 c1Sys [0, 0, 1, 1]).gatewayCalls = 1 := by
  decide

/-- C8: an unsafe-content event for an element already tracked in
`blockedElements` is absorbed silently — `handleUnsafeContent` leaves
the whole manipulator state (page, blocked set, replacement map)
exactly as it was, applying no blocking action. -/
theorem already_blocked_is_silent_noop (st : DMState) (element : DomElem)
    (ty : ContentKind) (r : AnalysisResult)
    (h : st.blockedElements.contains element.id = true) :
    handleUnsafeContent st element ty r = st := by
  unfold handleUnsafeContent
  rw [if_pos h]

/-- Witness for `already_blocked_is_silent_noop`: a concrete element
already blocked, handled again with an unsafe verdict, changes
nothing. -/
theorem already_blocked_is_silent_noop_witness :
    handleUnsafeContent ⟨[.placeholder 0], [5], [(0, ⟨5, "p", [], false, false, true, 9, true⟩)], 1⟩
      ⟨5, "p", [], false, false, true, 9, true⟩ .text ⟨false, 1, some ["toxic"]⟩ =
      ⟨[.placeholder 0], [5], [(0, ⟨5, "p", [], false, false, true, 9, true⟩)], 1⟩ :=
  already_blocked_is_silent_noop _ _ _ _ (by decide)

/-- C9 as stated is false: `isAllowlisted` tests the substring
relation in both directions (`currentDomain.includes(domain) ||
domain.includes(currentDomain)`), so with hostname `a.com` and
allowlist `["xa.comx"]` no allowlist entry occurs as a substring of
the hostname, yet `startScanning` returns without discovering or
queuing anything (and so does the periodic rescan), while the same
page with an empty allowlist does get scanned. -/
theorem allowlist_guard_counterexample :
    (["xa.comx"].all (fun d => !(strIncludes "a.com" d))) = true ∧
    isAllowlisted "a.com" ["xa.comx"] = true ∧
    startScanning false "a.com" ["xa.comx"] c9Store [0] = ⟨false, []⟩ ∧
    continuousScanningTick "a.com" ["xa.comx"] c9Store [0] = ⟨false, []⟩ ∧
    startScanning false "a.com" [] c9Store [0] = ⟨true, [0]⟩ := by
  decide

/-- C9 amended: `startScanning` (called while not yet scanning)
returns without discovering or queuing anything exactly when some
allowlist entry is a substring of the hostname OR the hostname is a
substring of the entry; the periodic rescan tick skips under exactly
the same condition; and on a non-allowlisted page both run the full
discovery pass. -/
theorem allowlist_guard_amended :
    (∀ host al store visits,
      (startScanning false host al store visits).scanned = false ↔
        isAllowlisted host al = true) ∧
    (∀ host al, isAllowlisted host al = true ↔
      ∃ d ∈ al, strIncludes host d = true ∨ strIncludes d host = true) ∧
    (∀ host al store visits,
      (continuousScanningTick host al store visits).scanned = false ↔
        isAllowlisted host al = true) ∧
    (∀ host al store visits, isAllowlisted host al = false →
      startScanning false host al store visits = ⟨true, (runVisits ⟨store, []⟩ visits).queued⟩ ∧
      continuousScanningTick host al store visits =
        ⟨true, (runVisits ⟨store, []⟩ visits).queued⟩) := by
  refine ⟨?_, ?_, ?_, ?_⟩
  · intro host al store visits
    by_cases hA : isAllowlisted host al
    · simp [startScanning, hA]
    · simp [startScanning, hA]
  · intro host al
    simp [isAllowlisted, List.any_eq_true]
  · intro host al store visits
    by_cases hA : isAllowlisted host al
    · simp [continuousScanningTick, hA]
    · simp [continuousScanningTick, hA]
  · intro host al store visits hA
    constructor
    · simp [startScanning, hA]
    · simp [continuousScanningTick, hA]

/-- Witness for `allowlist_guard_amended`: a non-allowlisted concrete
page runs the pass and queues its eligible element; an allowlisted one
skips. -/
theorem allowlist_guard_amended_witness :
    startScanning false "news.example.com" ["trusted.org"] c9Store [0] = ⟨true, [0]⟩ ∧
    (startScanning false "news.example.com" ["example.com"] c9Store [0]).scanned = false := by
  constructor
  · have h := (allowlist_guard_amended.2.2.2 "news.example.com" ["trusted.org"] c9Store [0]
      (by decide)).1
    rw [h]
    decide
  · exact (allowlist_guard_amended.1 "news.example.com" ["example.com"] c9Store [0]).mpr
      (by decide)

/-! ## Scanner lemmas: a visit either skips, or queues and marks -/

theorem scanVisit_of_skips {s : ScanState} {i : ℕ}
    (h : visitSkips s.store[i]? = true) : scanVisit s i = s := by
  unfold scanVisit
  cases hm : s.store[i]? with
  | none => rfl
  | some e =>
      rw [hm] at h
      simp only [visitSkips, Bool.or_eq_true, Bool.not_eq_true'] at h
      rcases h with h | h
      · simp [h]
      · by_cases hig : shouldIgnoreElement e = true
        · simp [hig]
        · simp [hig, h]

theorem scanVisit_cases (s : ScanState) (i : ℕ) :
    (visitSkips s.store[i]? = true ∧ scanVisit s i = s) ∨
    (∃ e, s.store[i]? = some e ∧ shouldIgnoreElement e = false ∧
      shouldAnalyzeText e = true ∧
      scanVisit s i = ⟨s.store.set i { e with processedAttr := true }, s.queued ++ [i]⟩) := by
  have hcase : visitSkips s.store[i]? = true ∨
      (∃ e, s.store[i]? = some e ∧ shouldIgnoreElement e = false ∧
        shouldAnalyzeText e = true) := by
    cases hm : s.store[i]? with
    | none => exact Or.inl rfl
    | some e =>
        by_cases hig : shouldIgnoreElement e = true
        · exact Or.inl (by simp [visitSkips, hig])
        · by_cases han : shouldAnalyzeText e = true
          · exact Or.inr ⟨e, rfl, by simpa using hig, han⟩
          · refine Or.inl ?_
            simp only [visitSkips, Bool.or_eq_true, Bool.not_eq_true']
            right
            simpa using han
  rcases hcase with hs | ⟨e, hm, hig, han⟩
  · exact Or.inl ⟨hs, scanVisit_of_skips hs⟩
  · refine Or.inr ⟨e, hm, hig, han, ?_⟩
    simp [scanVisit, hm, hig, han]

theorem processedAttr_ignored {e : DomElem} (h : e.processedAttr = true) :
    shouldIgnoreElement e = true := by
  simp [shouldIgnoreElement, h]

theorem visitSkips_preserved {s : ScanState} {j : ℕ} (i : ℕ)
    (h : visitSkips s.store[j]? = true) :
    visitSkips (scanVisit s i).store[j]? = true := by
  rcases scanVisit_cases s i with ⟨_, hc⟩ | ⟨e, hm, hig, han, hc⟩
  · rw [hc]; exact h
  · rw [hc]
    by_cases hij : i = j
    · subst hij
      have hlt : i < s.store.length := by
        rcases List.getElem?_eq_some.mp hm with ⟨hl, _⟩
        exact hl
      show visitSkips (s.store.set i { e with processedAttr := true })[i]? = true
      rw [List.getElem?_set_eq_of_lt _ hlt]
      simp [visitSkips, processedAttr_ignored]
    · show visitSkips (s.store.set i { e with processedAttr := true })[j]? = true
      rw [List.getElem?_set_ne hij]
      exact h

theorem scanVisit_skips_self (s : ScanState) (i : ℕ) :
    visitSkips (scanVisit s i).store[i]? = true := by
  rcases scanVisit_cases s i with ⟨hs, hc⟩ | ⟨e, hm, hig, han, hc⟩
  · rw [hc]; exact hs
  · rw [hc]
    have hlt : i < s.store.length := by
      rcases List.getElem?_eq_some.mp hm with ⟨hl, _⟩
      exact hl
    show visitSkips (s.store.set i { e with processedAttr := true })[i]? = true
    rw [List.getElem?_set_eq_of_lt _ hlt]
    simp [visitSkips, processedAttr_ignored]

theorem runVisits_skips_preserved {s : ScanState} {j : ℕ} (vs : List ℕ)
    (h : visitSkips s.store[j]? = true) :
    visitSkips (runVisits s vs).store[j]? = true := by
  induction vs generalizing s with
  | nil => exact h
  | cons v rest ih =>
      show visitSkips (runVisits (scanVisit s v) rest).store[j]? = true
      exact ih (visitSkips_preserved v h)

theorem runVisits_skips_visited (vs : List ℕ) :
    ∀ (s : ScanState), ∀ i ∈ vs, visitSkips (runVisits s vs).store[i]? = true := by
  induction vs with
  | nil => intro s i h; cases h
  | cons v rest ih =>
      intro s i hi
      show visitSkips (runVisits (scanVisit s v) rest).store[i]? = true
      rcases List.mem_cons.mp hi with rfl | hi'
      · exact runVisits_skips_preserved rest (scanVisit_skips_self s i)
      · exact ih (scanVisit s v) i hi'

theorem runVisits_of_skips {s : ScanState} (vs : List ℕ)
    (h : ∀ i ∈ vs, visitSkips s.store[i]? = true) : runVisits s vs = s := by
  induction vs with
  | nil => rfl
  | cons v rest ih =>
      have h1 : scanVisit s v = s := scanVisit_of_skips (h v (by simp))
      show runVisits (scanVisit s v) rest = s
      rw [h1]
      exact ih (fun i hi => h i (List.mem_cons_of_mem v hi))

theorem runVisits_queued_mono (vs : List ℕ) {x : ℕ} :
    ∀ {s : ScanState}, x ∈ s.queued → x ∈ (runVisits s vs).queued := by
  induction vs with
  | nil => intro s h; exact h
  | cons v rest ih =>
      intro s h
      show x ∈ (runVisits (scanVisit s v) rest).queued
      apply ih
      rcases scanVisit_cases s v with ⟨_, hc⟩ | ⟨e, _, _, _, hc⟩
      · rw [hc]; exact h
      · rw [hc]; exact List.mem_append_left _ h

theorem runVisits_nodup_inv (vs : List ℕ) :
    ∀ (s : ScanState), s.queued.Nodup →
      (∀ x ∈ s.queued, visitSkips s.store[x]? = true) →
      (runVisits s vs).queued.Nodup := by
  induction vs with
  | nil => intro s hnd _; exact hnd
  | cons v rest ih =>
      intro s hnd hq
      show (runVisits (scanVisit s v) rest).queued.Nodup
      rcases scanVisit_cases s v with ⟨_, hc⟩ | ⟨e, hm, hig, han, hc⟩
      · rw [hc]; exact ih s hnd hq
      · have hvnotq : v ∉ s.queued := by
          intro hv
          have hskip := hq v hv
          rw [hm] at hskip
          simp [visitSkips, hig, han] at hskip
        apply ih (scanVisit s v)
        · rw [hc]
          simp [List.nodup_append, hnd]
          intro hv
          exact hvnotq hv
        · intro x hx
          rw [hc] at hx
          rcases List.mem_append.mp hx with hx' | hx'
          · exact visitSkips_preserved v (hq x hx')
          · have : x = v := by simpa using hx'
            subst this
            exact scanVisit_skips_self s x

theorem runVisits_queues_eligible (vs : List ℕ) {i : ℕ} :
    ∀ {s : ScanState}, i ∈ vs → visitSkips s.store[i]? = false →
      i ∈ (runVisits s vs).queued := by
  induction vs with
  | nil => intro s hi; cases hi
  | cons v rest ih =>
      intro s hi h
      show i ∈ (runVisits (scanVisit s v) rest).queued
      by_cases hvi : v = i
      · subst hvi
        rcases scanVisit_cases s v with ⟨hsk, _⟩ | ⟨e, hm, hig, han, hc⟩
        · rw [hsk] at h; cases h
        · apply runVisits_queued_mono
          rw [hc]
          exact List.mem_append_right _ (by simp)
      · rcases List.mem_cons.mp hi with rfl | hi'
        · exact absurd rfl hvi
        · have hpres : (scanVisit s v).store[i]? = s.store[i]? := by
            rcases scanVisit_cases s v with ⟨_, hc⟩ | ⟨e, _, _, _, hc⟩
            · rw [hc]
            · rw [hc]
              exact List.getElem?_set_ne hvi
          exact ih hi' (by rw [hpres]; exact h)

/-- C3: every visited page node is queued at most once.  Over any page
store and any visit sequence (the same node may be reached through
several discovery paths, i.e. appear several times in the sequence):
(1) a second identical pass — scanning the same static page twice —
changes nothing, because a queued node is marked in the same atomic
step and the mark is checked before the discovery logic; (2) the queue
never contains a duplicate position; (3) every eligible, non-ignored
visited node is queued (exactly once, by (2)). -/
theorem scan_queues_each_node_at_most_once (store : List DomElem) (visits : List ℕ) :
    runVisits ⟨store, []⟩ (visits ++ visits) = runVisits ⟨store, []⟩ visits ∧
    (runVisits ⟨store, []⟩ visits).queued.Nodup ∧
    (∀ i e, i ∈ visits → store[i]? = some e → shouldIgnoreElement e = false →
      shouldAnalyzeText e = true → i ∈ (runVisits ⟨store, []⟩ visits).queued) := by
  refine ⟨?_, ?_, ?_⟩
  · show List.foldl scanVisit ⟨store, []⟩ (visits ++ visits) = runVisits ⟨store, []⟩ visits
    rw [List.foldl_append]
    exact runVisits_of_skips visits
      (fun i hi => runVisits_skips_visited visits ⟨store, []⟩ i hi)
  · exact runVisits_nodup_inv visits ⟨store, []⟩ List.nodup_nil (fun x hx => absurd hx (by simp))
  · intro i e hi hm hig han
    exact runVisits_queues_eligible visits hi (by
      show visitSkips store[i]? = false
      rw [hm]
      simp [visitSkips, hig, han])

/-- Witness for `scan_queues_each_node_at_most_once`: a concrete store
visited twice through two discovery paths queues its eligible node
exactly once. -/
theorem scan_queues_each_node_at_most_once_witness :
    runVisits ⟨c3Store, []⟩ ([0, 1, 2, 0] ++ [0, 1, 2, 0]) =
      runVisits ⟨c3Store, []⟩ [0, 1, 2, 0] ∧
    (runVisits ⟨c3Store, []⟩ [0, 1, 2, 0]).queued.Nodup ∧
    0 ∈ (runVisits ⟨c3Store, []⟩ [0, 1, 2, 0]).queued := by
  have h := scan_queues_each_node_at_most_once c3Store [0, 1, 2, 0]
  exact ⟨h.1, h.2.1,
    h.2.2 0 ⟨1, "p", [], false, false, false, 20, true⟩ (by decide) (by decide)
      (by decide) (by decide)⟩

/-! ## DOM-manipulator lemmas for replace / reveal -/

theorem replaceChild_cons_ne {n oldNode : PageNode} (t : List PageNode)
    (newNode : PageNode) (hne : n ≠ oldNode) :
    replaceChild (n :: t) newNode oldNode = n :: replaceChild t newNode oldNode := by
  simp only [replaceChild]
  rw [if_neg hne]

theorem replaceChild_cons_self (post : List PageNode) (newNode oldNode : PageNode) :
    replaceChild (oldNode :: post) newNode oldNode = newNode :: post := by
  simp [replaceChild]

theorem replaceChild_append_of_not_mem {pre : List PageNode} {oldNode : PageNode}
    (l : List PageNode) (newNode : PageNode) (h : oldNode ∉ pre) :
    replaceChild (pre ++ l) newNode oldNode = pre ++ replaceChild l newNode oldNode := by
  induction pre with
  | nil => rfl
  | cons n rest ih =>
      have hne : n ≠ oldNode := fun hn => h (hn ▸ List.mem_cons_self n rest)
      rw [List.cons_append, replaceChild_cons_ne _ _ hne,
        ih (fun hm => h (List.mem_cons_of_mem n hm)), List.cons_append]

theorem runVisits_not_queued_of_skips (vs : List ℕ) {i : ℕ} :
    ∀ {s : ScanState}, visitSkips s.store[i]? = true → i ∉ s.queued →
      i ∉ (runVisits s vs).queued := by
  induction vs with
  | nil => intro s _ hq; exact hq
  | cons v rest ih =>
      intro s hskip hq
      show i ∉ (runVisits (scanVisit s v) rest).queued
      rcases scanVisit_cases s v with ⟨_, hc⟩ | ⟨e, hm, hig, han, hc⟩
      · rw [hc]
        exact ih hskip hq
      · by_cases hvi : v = i
        · subst hvi
          rw [hm] at hskip
          simp [visitSkips, hig, han] at hskip
        · apply ih
          · rw [hc]
            show visitSkips (s.store.set v { e with processedAttr := true })[i]? = true
            rw [List.getElem?_set_ne hvi]
            exact hskip
          · rw [hc]
            intro hmem
            rcases List.mem_append.mp hmem with hx | hx
            · exact hq hx
            · have hiv : i = v := by simpa using hx
              exact hvi hiv.symm

/-- C7 as stated is false: after `replace` and a confirmed reveal the
original node is back in its former place, but `showOriginalContent`
adds the `ai-firewall-safe` class to it, so the node is not
bit-identical to its pre-block state. -/
theorem replace_reveal_not_bit_identical :
    (showOriginalContent
        (handleUnsafeContent ⟨[.elem c7Orig], [], [], 0⟩ c7Orig .text
          ⟨false, mkRat 9 10, some ["toxic"]⟩)
        0 c7Orig true).page = [PageNode.elem (addClass c7Orig "ai-firewall-safe")] ∧
    addClass c7Orig "ai-firewall-safe" ≠ c7Orig ∧
    (showOriginalContent
        (handleUnsafeContent ⟨[.elem c7Orig], [], [], 0⟩ c7Orig .text
          ⟨false, mkRat 9 10, some ["toxic"]⟩)
        0 c7Orig true).page ≠ [PageNode.elem c7Orig] := by
  decide

/-- C7 amended: after `replace` and a confirmed reveal, the original
node is put back at its former position in the tree with the
`ai-firewall-safe` class appended (hence not bit-identical to its
pre-block state whenever it lacked that class), the tracking entries
are destroyed, and the revealed node is never queued for analysis
again — the safe class makes the scanner ignore it at every visit. -/
theorem replace_reveal_restores_marked (orig : DomElem) (pre post : List PageNode)
    (res : AnalysisResult) (p₀ : ℕ)
    (hmethod : getBlockingMethod .text res = .replace)
    (hsafe : orig.classes.contains "ai-firewall-safe" = false)
    (hpre1 : PageNode.elem orig ∉ pre)
    (hpre2 : PageNode.placeholder p₀ ∉ pre) :
    (showOriginalContent
        (handleUnsafeContent ⟨pre ++ PageNode.elem orig :: post, [], [], p₀⟩ orig .text res)
        p₀ orig true).page =
      pre ++ PageNode.elem (addClass orig "ai-firewall-safe") :: post ∧
    addClass orig "ai-firewall-safe" ≠ orig ∧
    (showOriginalContent
        (handleUnsafeContent ⟨pre ++ PageNode.elem orig :: post, [], [], p₀⟩ orig .text res)
        p₀ orig true).blockedElements = [] ∧
    (showOriginalContent
        (handleUnsafeContent ⟨pre ++ PageNode.elem orig :: post, [], [], p₀⟩ orig .text res)
        p₀ orig true).replacementElements = [] ∧
    shouldIgnoreElement (addClass orig "ai-firewall-safe") = true ∧
    (∀ (store : List DomElem) (visits : List ℕ) (i : ℕ),
      store[i]? = some (addClass orig "ai-firewall-safe") →
      i ∉ (runVisits ⟨store, []⟩ visits).queued) := by
  have hnotmem : "ai-firewall-safe" ∉ orig.classes := by simpa using hsafe
  have hblocked : handleUnsafeContent ⟨pre ++ PageNode.elem orig :: post, [], [], p₀⟩ orig
      .text res =
      ⟨pre ++ PageNode.placeholder p₀ :: post, [orig.id], [(p₀, orig)], p₀ + 1⟩ := by
    unfold handleUnsafeContent
    rw [if_neg (by simp)]
    rw [hmethod]
    unfold replaceContent
    simp only
    rw [replaceChild_append_of_not_mem _ _ hpre1, replaceChild_cons_self]
    rfl
  have hclasses : (addClass orig "ai-firewall-safe").classes =
      orig.classes ++ ["ai-firewall-safe"] := by
    simp [addClass, hnotmem]
  have hsafemem : "ai-firewall-safe" ∈ (addClass orig "ai-firewall-safe").classes := by
    rw [hclasses]
    exact List.mem_append_right _ (by simp)
  have hign : shouldIgnoreElement (addClass orig "ai-firewall-safe") = true := by
    simp [shouldIgnoreElement, matchesIgnoreSelf, hsafemem]
  refine ⟨?_, ?_, ?_, ?_, hign, ?_⟩
  · rw [hblocked]
    unfold showOriginalContent
    rw [if_pos rfl]
    simp only
    rw [replaceChild_append_of_not_mem _ _ hpre2, replaceChild_cons_self]
  · intro h
    have hlen : (addClass orig "ai-firewall-safe").classes.length = orig.classes.length :=
      congrArg (fun e => e.classes.length) h
    rw [hclasses] at hlen
    simp at hlen
  · rw [hblocked]
    unfold showOriginalContent
    rw [if_pos rfl]
    simp
  · rw [hblocked]
    unfold showOriginalContent
    rw [if_pos rfl]
    simp
  · intro store visits i hm
    refine runVisits_not_queued_of_skips visits ?_ (by simp)
    show visitSkips store[i]? = true
    rw [hm]
    simp [visitSkips, hign]

/-- Witness for `replace_reveal_restores_marked`: the concrete blocked
page, with surrounding siblings, restored with the safe marker. -/
theorem replace_reveal_restores_marked_witness :
    (showOriginalContent
        (handleUnsafeContent
          ⟨[.placeholder 99, .elem c7Orig, .elem ⟨8, "p", [], false, false, false, 9, true⟩],
            [], [], 0⟩ c7Orig .text ⟨false, mkRat 9 10, some ["toxic"]⟩)
        0 c7Orig true).page =
      [.placeholder 99, .elem (addClass c7Orig "ai-firewall-safe"),
        .elem ⟨8, "p", [], false, false, false, 9, true⟩] ∧
    0 ∉ (runVisits ⟨[addClass c7Orig "ai-firewall-safe"], []⟩ [0, 0]).queued := by
  have h := replace_reveal_restores_marked c7Orig [.placeholder 99]
    [.elem ⟨8, "p", [], false, false, false, 9, true⟩] ⟨false, mkRat 9 10, some ["toxic"]⟩ 0
    (by decide) (by decide) (by decide) (by decide)
  exact ⟨h.1, h.2.2.2.2.2 [addClass c7Orig "ai-firewall-safe"] [0, 0] 0 (by decide)⟩

end AIFirewall
